import Mathlib

/-!
A shallow embedding of the flexrender coordinator (client engine) in Lean 4,
with theorems checking the natural-language specification against the code.

Modelled sources:
* `src/shared/types/net_node.cpp` — `NetNode::Receive`, `NetNode::Send`,
  `NetNode::Flush` (message framing and buffered writes);
* the client engine (`client::StartRender`, `client::StopRender`,
  `client::OnInterestingTimeout`, `client::OnRunawayTimeout`,
  `client::SyncMesh`, `client::OnSyncIdle`, `client::OnOK`,
  `client::DispatchMessage`);
* `Library` (slot stores, emissive index, `BuildSpatialIndex`), in its two
  provided variants;
* `Buffer::Merge`.

Machine integers are modelled as `Nat` with explicit `% 2^w` where the width
matters; `float` quantities that are only compared and added (worker progress,
the runaway margin, buffer texels) are modelled as `ℚ`.
-/

namespace FlexRender

/-! ## Message kinds (`Message::Kind` enum, numeric values from the header) -/

def KIND_NONE : Nat := 0
def KIND_OK : Nat := 1
def KIND_ERROR : Nat := 2
def KIND_INIT : Nat := 100
def KIND_SYNC_CONFIG : Nat := 200
def KIND_SYNC_SHADER : Nat := 201
def KIND_SYNC_TEXTURE : Nat := 202
def KIND_SYNC_MATERIAL : Nat := 203
def KIND_SYNC_MESH : Nat := 204
def KIND_SYNC_CAMERA : Nat := 205
def KIND_SYNC_EMISSIVE : Nat := 206
def KIND_BUILD_BVH : Nat := 250
def KIND_SYNC_WBVH : Nat := 260
def KIND_SYNC_IMAGE : Nat := 290
def KIND_RENDER_START : Nat := 300
def KIND_RENDER_STOP : Nat := 301
def KIND_RENDER_STATS : Nat := 302
def KIND_RENDER_PAUSE : Nat := 303
def KIND_RENDER_RESUME : Nat := 304
def KIND_RAY : Nat := 400

/-! ## Library slot stores

Two variants of `Library::StoreShader/StoreTexture/StoreMaterial/StoreMesh`
appear in the sources.  Both maintain a `std::vector` of owning pointers,
modelled as a `List (Option α)` (a `none` slot is a null pointer; releasing
the prior occupant has no value-level effect beyond the slot contents). -/

/-- Insert-based store variant: `if (id < size) { if (tbl[id]) { delete; tbl[id] = nullptr; } } else tbl.resize(id, nullptr); tbl.insert(tbl.begin() + id, v);`. -/
def storeSlotIns (tbl : List (Option α)) (id : Nat) (v : Option α) : List (Option α) :=
  let t2 :=
    if id < tbl.length then
      if (tbl.getD id none).isSome then tbl.set id none else tbl
    else tbl ++ List.replicate (id - tbl.length) none
  t2.insertIdx id v

/-- Assignment-based store variant: `if (id < size) { if (tbl[id]) delete; } else tbl.resize(id + 1, nullptr); tbl[id] = v;`. -/
def storeSlotAsn (tbl : List (Option α)) (id : Nat) (v : Option α) : List (Option α) :=
  if id < tbl.length then tbl.set id v
  else (tbl ++ List.replicate (id + 1 - tbl.length) none).set id v

/-- Material payload: only the `emissive` flag matters to the library. -/
structure Material where
  emissive : Bool
deriving DecidableEq, Repr

/-- Mesh payload: only the material id matters to the library. -/
structure Mesh where
  material : Nat
deriving DecidableEq, Repr

/-- The parts of `Library` state that `StoreMesh` touches
(assignment variant, the one with the emissive index). -/
structure Library where
  materials : List (Option Material)
  meshes : List (Option Mesh)
  emissiveIndex : List Nat
deriving DecidableEq, Repr

/-- The condition under which `Library::StoreMesh` appends to
`_emissive_index`: the stored mesh is non-null and its material's `emissive`
flag is set (`Material* mat = _materials[mesh->material]; assert(mat != nullptr); if (mat->emissive) ...`; the failed-assert abort on a null material
is modelled as `false`). -/
def meshIsEmissive (materials : List (Option Material)) : Option Mesh → Bool
  | none => false
  | some m =>
    match materials.getD m.material none with
    | some mat => mat.emissive
    | none => false

/-- `Library::StoreMesh(id, mesh)` (assignment variant): store the slot, and
if the mesh is non-null and its material is emissive, push the id onto
`_emissive_index`. -/
def Library.storeMesh (lib : Library) (id : Nat) (mesh : Option Mesh) : Library :=
  { lib with
    meshes := storeSlotAsn lib.meshes id mesh,
    emissiveIndex :=
      if meshIsEmissive lib.materials mesh then lib.emissiveIndex ++ [id]
      else lib.emissiveIndex }

/-- A sequence of `StoreMesh` calls, applied in order. -/
def Library.storeMeshSeq (lib : Library) (ops : List (Nat × Option Mesh)) : Library :=
  ops.foldl (fun l op => l.storeMesh op.1 op.2) lib

/-! ## Spatial index (`Library::BuildSpatialIndex`) -/

/-- Modelled from the spec: `SPACECODE_MAX` is the largest 63-bit space code
("63-bit Morton-interleaved integer code" per the glossary); its defining
header is not among the provided sources. -/
def SPACECODE_MAX : Nat := 2 ^ 63 - 1

/-- The worker ids recorded by `BuildSpatialIndex`: `for (id = 1; id < _nodes.size(); id++) _spatial_index.push_back(id);`, as a function of `_nodes.size()`. -/
def spatialIndexIds (nodesSize : Nat) : List Nat :=
  (List.range nodesSize).drop 1

/-- The chunk size set by `BuildSpatialIndex`:
`_chunk_size = ((SPACECODE_MAX + 1) / (_nodes.size() - 1)) + 1;`. -/
def spatialChunkSize (nodesSize : Nat) : Nat :=
  (SPACECODE_MAX + 1) / (nodesSize - 1) + 1

/-- Ceiling division on `Nat`, the form the spec's `⌈(SPACECODE_MAX+1)/n⌉` takes. -/
def ceilDivNat (a b : Nat) : Nat := (a + b - 1) / b

/-! ## `Buffer::Merge` -/

/-- The parts of `Buffer` that `Merge` touches: dimensions and the texel
vector.  Texels are `float` in the code; only addition is used, modelled
over `ℚ`. -/
structure RBuffer where
  width : Int
  height : Int
  data : List ℚ
deriving DecidableEq, Repr

/-- The loop of `Buffer::Merge`: `for (i = 0; i < other._data.size(); i++) _data[i] += other._data[i];`.  The loop walks the indices of `other`'s data
and adds into this buffer's data; indexing `_data[i]` out of bounds is
undefined behaviour, modelled as `none`. -/
def mergeData : List ℚ → List ℚ → Option (List ℚ)
  | d, [] => some d
  | [], _ :: _ => none
  | x :: d, y :: o => (mergeData d o).map (fun d2 => (x + y) :: d2)

/-- `Buffer::Merge(other)` over the model. -/
def RBuffer.merge (b other : RBuffer) : Option RBuffer :=
  (mergeData b.data other.data).map (fun d => { b with data := d })

/-! ## Message framing (`NetNode::Send` / `NetNode::Receive` / `NetNode::Flush`)

A message on the wire is an 8-byte header (`kind : u32`, `size : u32`, host
little-endian byte order) followed by exactly `size` body bytes.  Bytes are
`Nat` values `< 256`.  The sender owns a bounded write buffer of
`FR_WRITE_BUFFER_SIZE` bytes; `Flush` hands the buffer contents to the socket,
and the wire stream is the concatenation of all flushed chunks. -/

/-- A message as held in `struct Message`: `kind`, `size`, and `size` body
bytes behind the `body` pointer. -/
structure WireMessage where
  kind : Nat
  size : Nat
  body : List Nat
deriving DecidableEq, Repr

/-- Well-formedness of a message handed to `Send`: the two header fields fit
in `u32` and the body holds exactly `size` bytes. -/
def WireMessage.wf (m : WireMessage) : Prop :=
  m.kind < 2 ^ 32 ∧ m.size < 2 ^ 32 ∧ m.body.length = m.size

instance (m : WireMessage) : Decidable m.wf := by
  unfold WireMessage.wf; infer_instance

/-- The four bytes of a `u32` in memory (little-endian host order). -/
def enc32 (x : Nat) : List Nat :=
  [x % 256, x / 2 ^ 8 % 256, x / 2 ^ 16 % 256, x / 2 ^ 24 % 256]

/-- Reassembling a `u32` from its four in-memory bytes. -/
def dec32 (b0 b1 b2 b3 : Nat) : Nat :=
  b0 + b1 * 2 ^ 8 + b2 * 2 ^ 16 + b3 * 2 ^ 24

/-- The bytes `Send` emits for one message: the 8 header bytes
(`memcpy(to, &msg, header_size)`) followed by the `size` body bytes. -/
def encodeMsg (m : WireMessage) : List Nat :=
  enc32 m.kind ++ enc32 m.size ++ m.body

/-- Sender-side state: the write buffer contents (`buffer` up to `nwritten`)
and the concatenation of everything flushed to the socket so far. -/
structure SendState where
  buf : List Nat
  sent : List Nat
deriving DecidableEq, Repr

/-- `NetNode::Flush`: if the buffer is non-empty, write its contents to the
socket (append to `sent`) and reset `nwritten`. -/
def flushSend (s : SendState) : SendState :=
  if s.buf = [] then s else { buf := [], sent := s.sent ++ s.buf }

/-- The body loop of `NetNode::Send`: while the remaining body does not fit
in the buffer's free space, copy what fits, flush, and continue; then copy
the rest.  `cap` is `FR_WRITE_BUFFER_SIZE` (the recursion needs `0 < cap`,
which the code assumes). -/
def sendBody (cap : Nat) (hcap : 0 < cap) (s : SendState) (bs : List Nat) :
    SendState :=
  let space := cap - s.buf.length
  if bs.length ≤ space then { s with buf := s.buf ++ bs }
  else
    sendBody cap hcap (flushSend { s with buf := s.buf ++ bs.take space })
      (bs.drop space)
termination_by (bs.length, s.buf.length)
decreasing_by
  rcases Nat.eq_zero_or_pos space with h0 | hpos
  · -- the buffer is full (`space_left = 0`): flush empties it
    have hb : s.buf ≠ [] := by
      intro hnil
      simp only [space, hnil, List.length_nil, Nat.sub_zero] at h0
      omega
    have : flushSend { s with buf := s.buf ++ bs.take space } =
        { buf := [], sent := s.sent ++ (s.buf ++ bs.take space) } := by
      unfold flushSend
      simp only [h0, List.take_zero, List.append_nil]
      simp [hb]
    rw [this]
    have hd : cap - s.buf.length = 0 := h0
    rw [hd, List.drop_zero]
    have hlen : 0 < s.buf.length := List.length_pos.mpr hb
    exact Prod.Lex.right _ (by simpa using hlen)
  · -- some bytes were copied: the remaining body strictly shrinks
    apply Prod.Lex.left
    have : space < bs.length := by omega
    simp only [List.length_drop]
    omega

/-- `NetNode::Send(msg)`: flush first if the 8-byte header would overflow the
buffer, append the header, then run the body loop. -/
def sendMsg (cap : Nat) (hcap : 8 ≤ cap) (s : SendState) (m : WireMessage) :
    SendState :=
  let s1 := if cap < s.buf.length + 8 then flushSend s else s
  sendBody cap (by omega) { s1 with buf := s1.buf ++ enc32 m.kind ++ enc32 m.size }
    m.body

/-- Sending a sequence of messages through one connection's write buffer. -/
def sendAll (cap : Nat) (hcap : 8 ≤ cap) (s : SendState)
    (ms : List WireMessage) : SendState :=
  ms.foldl (sendMsg cap hcap) s

/-- The byte stream a sequence of `Send`s puts on the wire, after the final
flush (the engine's flush timer guarantees buffered bytes eventually go out). -/
def wireStream (cap : Nat) (hcap : 8 ≤ cap) (ms : List WireMessage) : List Nat :=
  (flushSend (sendAll cap hcap ⟨[], []⟩ ms)).sent

/-- Receiver read mode together with the partial-message accumulator:
`ReadMode::HEADER` holds the header bytes read so far (`nread` of 8),
`ReadMode::BODY` holds the parsed `kind` and `size` and the body bytes read
so far (`nread` of `size`). -/
inductive RMode
  | header (acc : List Nat)
  | body (kind size : Nat) (acc : List Nat)
deriving DecidableEq, Repr

/-- Receiver-side state: the read mode plus the messages dispatched so far
(each `_dispatcher(this)` call appends the completed message). -/
structure RecvState where
  mode : RMode
  dispatched : List WireMessage
deriving DecidableEq, Repr

/-- One byte of `NetNode::Receive`'s loop.  The code copies
`bytes_to_go`-byte blocks with `memcpy`; consuming the chunk one byte at a
time is observationally identical: a header completing at its 8th byte with
`size == 0` dispatches immediately (the code falls through to the BODY branch
with `bytes_to_go == 0`), and a non-empty body dispatches on its last byte. -/
def recvByte (s : RecvState) (b : Nat) : RecvState :=
  match s.mode with
  | .header acc =>
    let acc2 := acc ++ [b]
    if acc2.length < 8 then { s with mode := .header acc2 }
    else
      match acc2 with
      | [b0, b1, b2, b3, c0, c1, c2, c3] =>
        let kind := dec32 b0 b1 b2 b3
        let size := dec32 c0 c1 c2 c3
        if size = 0 then
          { mode := .header [], dispatched := s.dispatched ++ [⟨kind, 0, []⟩] }
        else { s with mode := .body kind size [] }
      | _ => { s with mode := .header acc2 }
  | .body kind size acc =>
    let acc2 := acc ++ [b]
    if acc2.length < size then { s with mode := .body kind size acc2 }
    else { mode := .header [], dispatched := s.dispatched ++ [⟨kind, size, acc2⟩] }

/-- `NetNode::Receive(buf, len)`: consume one chunk of the stream
(a zero-length chunk is ignored, as in the code's early return). -/
def recvChunk (s : RecvState) (chunk : List Nat) : RecvState :=
  chunk.foldl recvByte s

/-- Feeding a sequence of chunks (successive `Receive` calls) to one
connection. -/
def recvChunks (s : RecvState) (chunks : List (List Nat)) : RecvState :=
  chunks.foldl recvChunk s

/-- The initial receiver state (`mode = HEADER`, `nread = 0`). -/
def recvInit : RecvState := ⟨.header [], []⟩

/-! ## Worker lifecycle states (`NetNode::State`, as used by the client) -/

inductive NState
  | NONE
  | INITIALIZING
  | CONFIGURING
  | SYNCING_ASSETS
  | SYNCING_CAMERA
  | SYNCING_EMISSIVE
  | BUILDING_BVH
  | SYNCING_WBVH
  | READY
  | RENDERING
  | PAUSED
  | SYNCING_IMAGES
deriving DecidableEq, Repr

/-! ## Image-slab partition (`client::StartRender`)

For worker `id` (1-based) of `n = config->workers.size()` over image width
`W = config->width`:
```
uint16_t chunk_size = config->width / config->workers.size();
int16_t offset = (id - 1) * chunk_size;
if (id == config->workers.size()) {
    chunk_size = config->width - (id - 1) * chunk_size;
}
uint32_t payload = (offset << 16) | chunk_size;
```
`uint16_t`/`int16_t`/`uint32_t` narrowing is `% 2 ^ 16` / `% 2 ^ 32` on the
value's bit pattern (`offset` contributes its low 16 bits to the payload). -/

/-- `chunk_size` before the last-worker adjustment (a `uint16_t`). -/
def slabQ (W n : Nat) : Nat := W / n % 2 ^ 16

/-- The low 16 bits of `offset = (id - 1) * chunk_size` (an `int16_t`;
only its 16-bit pattern reaches the payload). -/
def slabOffset (W n id : Nat) : Nat := (id - 1) * slabQ W n % 2 ^ 16

/-- The final `chunk_size`: the last worker absorbs the remainder of the
width. -/
def slabChunk (W n id : Nat) : Nat :=
  if id = n then (W - (id - 1) * slabQ W n) % 2 ^ 16 else slabQ W n

/-- The `RENDER_START` payload `(offset << 16) | chunk_size` as a `uint32_t`
(`chunk_size < 2 ^ 16`, so the `|` is `+`). -/
def slabPayload (W n id : Nat) : Nat :=
  (slabOffset W n id * 2 ^ 16 + slabChunk W n id) % 2 ^ 32

/-! ## Runaway monitor (`client::OnRunawayTimeout`)

Worker progress is a `float` reported by the worker; only `<`, `≤`, `+` and
`min` are applied to it, so it is modelled as `ℚ`. -/

/-- A worker as the runaway monitor sees it. -/
structure RWorker where
  progress : ℚ
  state : NState
deriving DecidableEq, Repr

/-- The first `ForEachNetNode` pass: fold for the slowest progress, starting
from `infinity` (modelled as `none`). -/
def slowestProgress (ws : List RWorker) : Option ℚ :=
  ws.foldl
    (fun acc w =>
      match acc with
      | none => some w.progress
      | some s => if w.progress < s then some w.progress else some s)
    none

/-- The second `ForEachNetNode` pass, for a single worker: pause a runaway
(more than `runaway` ahead of `slowest` and not already `PAUSED`), resume a
paused worker that has fallen back to the slowest.  Returns the updated
worker and the message sent, if any. -/
def runawayStep (slowest runaway : ℚ) (w : RWorker) : RWorker × Option Nat :=
  if slowest + runaway < w.progress then
    if w.state ≠ NState.PAUSED then
      ({ w with state := NState.PAUSED }, some KIND_RENDER_PAUSE)
    else (w, none)
  else if w.progress ≤ slowest then
    if w.state = NState.PAUSED then
      ({ w with state := NState.RENDERING }, some KIND_RENDER_RESUME)
    else (w, none)
  else (w, none)

/-- One runaway-timer tick over all workers. -/
def runawayTick (runaway : ℚ) (ws : List RWorker) : List (RWorker × Option Nat) :=
  match slowestProgress ws with
  | none => []
  | some s => ws.map (runawayStep s runaway)

/-! ## Interesting monitor and `StopRender`
(`client::OnInterestingTimeout`, `client::StopRender`) -/

/-- One stats window as reported by a worker. -/
structure RayStats where
  produced : Nat
  killed : Nat
  queued : Nat
deriving DecidableEq, Repr

/-- Modelled from the spec: `NetNode::IsInteresting(max_intervals)` (not among
the provided sources) — a worker is interesting iff any of rays produced,
killed, or queued is non-zero within its last `max_intervals` stats windows. -/
def isInteresting (maxIntervals : Nat) (stats : List RayStats) : Bool :=
  ((stats.reverse.take maxIntervals).any
    (fun s => !(s.produced == 0 && s.killed == 0 && s.queued == 0)))

/-- A worker as the interesting monitor sees it: lifecycle state, the rolling
stats windows, and the log of messages the coordinator has sent it. -/
structure QWorker where
  state : NState
  stats : List RayStats
  log : List Nat
deriving DecidableEq, Repr

/-- The engine state driving the interesting and runaway timers during the
render phase. -/
structure QEngine where
  workers : List QWorker
  interestingActive : Bool
  runawayActive : Bool
  stopCount : Nat
deriving DecidableEq, Repr

/-- `client::StopRender`: stop the interesting and runaway timers, send
`RENDER_STOP` to every worker and transition it to `SYNCING_IMAGES`.
`stopCount` counts the invocations. -/
def stopRender (e : QEngine) : QEngine :=
  { workers := e.workers.map
      (fun w => { w with state := NState.SYNCING_IMAGES,
                         log := w.log ++ [KIND_RENDER_STOP] }),
    interestingActive := false,
    runawayActive := false,
    stopCount := e.stopCount + 1 }

/-- `client::OnInterestingTimeout`: fires only while the interesting timer
runs; if every worker is uninteresting, invoke `StopRender`. -/
def interestingTick (maxIntervals : Nat) (e : QEngine) : QEngine :=
  if e.interestingActive = false then e
  else if e.workers.all (fun w => !isInteresting maxIntervals w.stats) then
    stopRender e
  else e

/-- Events during the render phase: a worker reports a new stats window
(`OnRenderStats` appending to its rolling window), or a timer tick.  The
runaway tick is included to check it cannot disturb the quiescence
invariants after `StopRender`. -/
inductive QEvent
  | stats (i : Nat) (s : RayStats)
  | itick
  | rtick (pause : List Bool)
deriving DecidableEq, Repr

/-- The runaway tick lifted to `QWorker`s (progress is immaterial to the
quiescence claims; the tick only touches states and may send
`RENDER_PAUSE`/`RENDER_RESUME`, never `RENDER_STOP`).  It fires only while
the runaway timer runs. -/
def qRunawayTick (pause : List Bool) (e : QEngine) : QEngine :=
  if e.runawayActive = false then e
  else
    let step : QWorker × Bool → QWorker := fun p =>
      if p.2 then
        if p.1.state = NState.RENDERING then
          { p.1 with state := NState.PAUSED, log := p.1.log ++ [KIND_RENDER_PAUSE] }
        else p.1
      else
        if p.1.state = NState.PAUSED then
          { p.1 with state := NState.RENDERING, log := p.1.log ++ [KIND_RENDER_RESUME] }
        else p.1
    { e with workers :=
        (e.workers.zip (pause ++ List.replicate e.workers.length false)).map step }

/-- `OnRenderStats` for worker `i`: append one stats window to its rolling
window (a report for an unknown worker id changes nothing). -/
def addStatsAt (ws : List QWorker) (i : Nat) (s : RayStats) : List QWorker :=
  ws.set i
    (let w := ws.getD i ⟨NState.NONE, [], []⟩
     { w with stats := w.stats ++ [s] })

/-- One engine step for a render-phase event. -/
def qStep (maxIntervals : Nat) (e : QEngine) : QEvent → QEngine
  | .stats i s => { e with workers := addStatsAt e.workers i s }
  | .itick => interestingTick maxIntervals e
  | .rtick pause => qRunawayTick pause e

/-- Running a sequence of render-phase events. -/
def qRun (maxIntervals : Nat) (e : QEngine) (evs : List QEvent) : QEngine :=
  evs.foldl (qStep maxIntervals) e

/-! ## Mesh-handoff rendezvous (`client::SyncMesh` / `client::OnSyncIdle` /
`client::OnOK` in `SYNCING_ASSETS`)

The producer thread and the reactor synchronize through the counting
semaphores `mesh_synced` (initially 1) and `mesh_read` (initially 0) and the
publication cell `current_mesh_id`.  The interleaving is modelled as a
labelled transition system; a label's step is `none` when the corresponding
code is not enabled (a blocked `sem_wait`, an `EAGAIN` `sem_trywait`, or an
ACK with no message outstanding). -/

/-- The producer's position in `SyncMesh`: `waiting` before
`sem_wait(&mesh_synced)`, `holding` between the wait and
`sem_post(&mesh_read)`. -/
inductive PPc
  | waiting
  | holding
deriving DecidableEq, Repr

/-- The joint state of the handoff. -/
structure HState where
  synced : Nat
  meshRead : Nat
  pc : PPc
  cur : Nat
  inflight : Nat
  idleOn : Bool
deriving DecidableEq, Repr

/-- Transition labels: the producer passes `sem_wait(&mesh_synced)`
(`acquire`); the producer stores the mesh, publishes `current_mesh_id`, and
posts `mesh_read` (`publish id`, with `id = 0` for end-of-assets); the
reactor's idle handler passes `sem_trywait(&mesh_read)` and either sends the
published mesh (`idleSend`) or, on id 0, stops idling (`idleFinish`); the
target worker's OK in `SYNCING_ASSETS` releases the slot and posts
`mesh_synced` (`ack`). -/
inductive HLabel
  | acquire
  | publish (id : Nat)
  | idleSend
  | idleFinish
  | ack
deriving DecidableEq, Repr

/-- One step of the handoff system. -/
def hStep (s : HState) : HLabel → Option HState
  | .acquire =>
    if s.pc = PPc.waiting ∧ 0 < s.synced then
      some { s with synced := s.synced - 1, pc := PPc.holding }
    else none
  | .publish id =>
    if s.pc = PPc.holding then
      some { s with cur := id, meshRead := s.meshRead + 1, pc := PPc.waiting }
    else none
  | .idleSend =>
    if s.idleOn ∧ 0 < s.meshRead ∧ s.cur ≠ 0 then
      some { s with meshRead := s.meshRead - 1, inflight := s.inflight + 1 }
    else none
  | .idleFinish =>
    if s.idleOn ∧ 0 < s.meshRead ∧ s.cur = 0 then
      some { s with meshRead := s.meshRead - 1, idleOn := false }
    else none
  | .ack =>
    if 0 < s.inflight then
      some { s with inflight := s.inflight - 1, synced := s.synced + 1 }
    else none

/-- Running a sequence of labels (`none` once a label is not enabled). -/
def hRun (s : HState) : List HLabel → Option HState
  | [] => some s
  | l :: ls => (hStep s l).bind (fun s2 => hRun s2 ls)

/-- The initial handoff state set up by `client::StartSync`:
`sem_init(&mesh_read, 0, 0)`, `sem_init(&mesh_synced, 0, 1)`, idle handler
started, producer about to wait, nothing in flight. -/
def hInit : HState :=
  { synced := 1, meshRead := 0, pc := PPc.waiting, cur := 0, inflight := 0,
    idleOn := true }

/-- The semaphore/turn tokens in circulation: `mesh_synced` plus `mesh_read`
plus the producer's held token plus the meshes in flight. -/
def hTokens (s : HState) : Nat :=
  s.synced + s.meshRead + (if s.pc = PPc.holding then 1 else 0) + s.inflight

/-! ## Message dispatch (`client::DispatchMessage` / `client::OnOK`) -/

/-- Abstract side effects of the dispatcher's handlers (sends composed by the
`NetNode` helpers, the mesh-slot release and `sem_post` of the
`SYNCING_ASSETS` case, the bounds recording of `BUILDING_BVH`, and the stats
and image receives). -/
inductive DAction
  | sendConfig
  | sendLightList
  | send (kind : Nat)
  | storeMeshNil
  | postMeshSynced
  | recordBounds
  | receiveStats
  | receiveImage
deriving DecidableEq, Repr

/-- The outcome of dispatching one message to one worker: the worker's next
state, the handler's side effects, whether a protocol error was logged
(`TERRLN`), and whether the process aborted. -/
structure DispatchResult where
  state : NState
  actions : List DAction
  logged : Bool
  fatal : Bool
deriving DecidableEq, Repr

/-- `client::OnOK(node)`: the per-state switch.  In `BUILDING_BVH` with
`use_linear_scan` the code sets the state to `SYNCING_WBVH` and re-enters
`OnOK`, which lands in the `SYNCING_WBVH` case and yields `READY`; that
recursion is inlined.  The `default` case logs
"Received OK in unexpected state." and leaves everything unchanged. -/
def onOK (linearScan : Bool) (st : NState) : DispatchResult :=
  match st with
  | .INITIALIZING => ⟨.CONFIGURING, [.sendConfig], false, false⟩
  | .CONFIGURING => ⟨.SYNCING_ASSETS, [], false, false⟩
  | .SYNCING_ASSETS => ⟨.SYNCING_ASSETS, [.storeMeshNil, .postMeshSynced], false, false⟩
  | .SYNCING_CAMERA => ⟨.SYNCING_EMISSIVE, [.sendLightList], false, false⟩
  | .SYNCING_EMISSIVE => ⟨.BUILDING_BVH, [.send KIND_BUILD_BVH], false, false⟩
  | .BUILDING_BVH =>
    if linearScan then ⟨.READY, [.recordBounds], false, false⟩
    else ⟨.BUILDING_BVH, [.recordBounds], false, false⟩
  | .SYNCING_WBVH => ⟨.READY, [], false, false⟩
  | s => ⟨s, [], true, false⟩

/-- `client::DispatchMessage(node)`: branch on the numeric message kind; any
kind other than `OK`, `RENDER_STATS`, `SYNC_IMAGE` logs
"Received unexpected message." and returns. -/
def dispatchMessage (linearScan : Bool) (kind : Nat) (st : NState) :
    DispatchResult :=
  if kind = KIND_OK then onOK linearScan st
  else if kind = KIND_RENDER_STATS then ⟨st, [.receiveStats], false, false⟩
  else if kind = KIND_SYNC_IMAGE then ⟨st, [.receiveImage], false, false⟩
  else ⟨st, [], true, false⟩

/-! ## Lemmas: `Buffer::Merge` -/

theorem mergeData_isSome (d o : List ℚ) :
    (mergeData d o).isSome ↔ o.length ≤ d.length := by
  induction o generalizing d with
  | nil => simp [mergeData]
  | cons y o ih =>
    cases d with
    | nil => simp [mergeData]
    | cons x d => simp [mergeData, ih d]

theorem mergeData_eq (d o : List ℚ) (h : o.length ≤ d.length) :
    mergeData d o =
      some (List.zipWith (fun x y => x + y) d o ++ d.drop o.length) := by
  induction o generalizing d with
  | nil => simp [mergeData]
  | cons y o ih =>
    cases d with
    | nil => simp at h
    | cons x d =>
      simp only [List.length_cons, Nat.add_le_add_iff_right] at h
      simp [mergeData, ih d h]

/-- C10: `Buffer::Merge` indexes this buffer's data at every index below the
other buffer's data size, so it stays in bounds exactly when
`other._data.size() ≤ this._data.size()` (in particular when the dimensions
match); in bounds, the result adds the other buffer's data pointwise into
this buffer's data, leaving this buffer's width, height, and data size
unchanged. -/
theorem buffer_merge_bounds :
    ∀ b other : RBuffer,
      ((b.merge other).isSome ↔ other.data.length ≤ b.data.length) ∧
      (∀ r, b.merge other = some r →
        r.width = b.width ∧ r.height = b.height ∧
        r.data.length = b.data.length ∧
        r.data = List.zipWith (fun x y => x + y) b.data other.data ++
          b.data.drop other.data.length) := by
  intro b other
  constructor
  · simpa [RBuffer.merge] using mergeData_isSome b.data other.data
  · intro r hr
    have hsome : (mergeData b.data other.data).isSome := by
      rcases hm : mergeData b.data other.data with _ | d
      · simp [RBuffer.merge, hm] at hr
      · simp
    have hle : other.data.length ≤ b.data.length :=
      (mergeData_isSome b.data other.data).mp hsome
    have hmd := mergeData_eq b.data other.data hle
    rw [RBuffer.merge, hmd] at hr
    simp at hr
    cases hr
    refine ⟨rfl, rfl, ?_, rfl⟩
    simp [List.length_zipWith]
    omega

/-- Closed-instance witness for `buffer_merge_bounds`. -/
theorem buffer_merge_bounds_witness :
    RBuffer.merge ⟨2, 1, [1, 2]⟩ ⟨2, 1, [10, 20]⟩ = some ⟨2, 1, [11, 22]⟩ := by
  have h := (buffer_merge_bounds ⟨2, 1, [1, 2]⟩ ⟨2, 1, [10, 20]⟩).2
  rcases hm : RBuffer.merge ⟨2, 1, [1, 2]⟩ ⟨2, 1, [10, 20]⟩ with _ | r
  · have : (RBuffer.merge ⟨2, 1, [1, 2]⟩ ⟨2, 1, [10, 20]⟩).isSome := by
      exact (buffer_merge_bounds ⟨2, 1, [1, 2]⟩ ⟨2, 1, [10, 20]⟩).1.mpr (by decide)
    rw [hm] at this
    simp at this
  · obtain ⟨hw, hh, hlen, hdata⟩ := h r hm
    cases r
    simp only at hw hh hdata
    simp only [hw, hh, hdata]
    norm_num

/-! ## Lemmas: the two slot-store variants -/

theorem insertIdx_at_length (t : List (Option Nat)) (v : Option Nat) :
    t.insertIdx t.length v = t ++ [v] := by
  induction t with
  | nil => rfl
  | cons x t ih => simpa [List.insertIdx] using ih

theorem set_at_length (t : List (Option Nat)) (v : Option Nat) :
    (t ++ [none]).set t.length v = t ++ [v] := by
  induction t with
  | nil => rfl
  | cons x t ih => simp [List.set, ih]

theorem storeSlotIns_at_length (t : List (Option Nat)) (v : Option Nat) :
    storeSlotIns t t.length v = t ++ [v] := by
  unfold storeSlotIns
  simp [insertIdx_at_length]

theorem storeSlotAsn_at_length (t : List (Option Nat)) (v : Option Nat) :
    storeSlotAsn t t.length v = t ++ [v] := by
  unfold storeSlotAsn
  simp [set_at_length]

theorem store_dense_agree (vs : List (Option Nat)) (t : List (Option Nat)) :
    vs.foldl (fun t v => storeSlotIns t t.length v) t =
      vs.foldl (fun t v => storeSlotAsn t t.length v) t := by
  simp only [storeSlotIns_at_length, storeSlotAsn_at_length]

/-- C8: the two `Library::Store*` implementations are not equivalent: the
insert-based variant shifts existing elements when a slot is re-stored, so
re-storing id 1 yields different slot tables; they do agree on fresh, dense,
increasing id sequences (each store at the current table length, ids
1, 2, 3, … over the initial one-slot table). -/
theorem store_variants_divergence :
    storeSlotIns (storeSlotIns ([none] : List (Option Nat)) 1 (some 10)) 1 (some 20) ≠
      storeSlotAsn (storeSlotAsn ([none] : List (Option Nat)) 1 (some 10)) 1 (some 20) ∧
    ∀ vs : List (Option Nat),
      vs.foldl (fun t v => storeSlotIns t t.length v) [none] =
        vs.foldl (fun t v => storeSlotAsn t t.length v) [none] := by
  refine ⟨by decide, fun vs => store_dense_agree vs [none]⟩

/-! ## Lemmas: the emissive index -/

theorem storeMesh_emissive_monotone (lib : Library) (id : Nat) (m : Option Mesh) :
    List.IsPrefix lib.emissiveIndex (lib.storeMesh id m).emissiveIndex := by
  unfold Library.storeMesh
  by_cases h : meshIsEmissive lib.materials m
  · simp only [h, if_true]
    exact List.prefix_append _ _
  · simp only [h, if_false]
    exact List.prefix_rfl

/-- C7: the emissive index is append-only.  Storing a non-nil mesh whose
material is emissive appends its id; storing nil never removes anything; over
any sequence of `StoreMesh` operations the old index remains a prefix of the
new one, so recorded ids stay for the library's lifetime. -/
theorem emissive_index_append_only :
    (∀ (lib : Library) (id : Nat) (m : Mesh) (mat : Material),
        lib.materials.getD m.material none = some mat → mat.emissive = true →
        (lib.storeMesh id (some m)).emissiveIndex = lib.emissiveIndex ++ [id]) ∧
    (∀ (lib : Library) (id : Nat),
        (lib.storeMesh id none).emissiveIndex = lib.emissiveIndex) ∧
    (∀ (ops : List (Nat × Option Mesh)) (lib : Library),
        List.IsPrefix lib.emissiveIndex (lib.storeMeshSeq ops).emissiveIndex) := by
  refine ⟨?_, ?_, ?_⟩
  · intro lib id m mat hmat hem
    have h : meshIsEmissive lib.materials (some m) = true := by
      simp only [meshIsEmissive]
      rw [hmat]
      exact hem
    unfold Library.storeMesh
    simp [h]
  · intro lib id
    rfl
  · intro ops
    induction ops with
    | nil => intro lib; exact List.prefix_rfl
    | cons op ops ih =>
      intro lib
      exact (storeMesh_emissive_monotone lib op.1 op.2).trans (ih _)

/-- Closed-instance witness for `emissive_index_append_only`: an emissive
mesh stored at id 1 is appended, and storing nil over it keeps the entry. -/
theorem emissive_index_append_only_witness :
    (Library.storeMesh ⟨[none, some ⟨true⟩], [none], []⟩ 1 (some ⟨1⟩)).emissiveIndex
      = [] ++ [1] ∧
    ((Library.storeMesh ⟨[none, some ⟨true⟩], [none], []⟩ 1 (some ⟨1⟩)).storeMesh
        1 none).emissiveIndex =
      (Library.storeMesh ⟨[none, some ⟨true⟩], [none], []⟩ 1 (some ⟨1⟩)).emissiveIndex :=
  ⟨emissive_index_append_only.1 ⟨[none, some ⟨true⟩], [none], []⟩ 1 ⟨1⟩ ⟨true⟩
      (by decide) (by decide),
    emissive_index_append_only.2.1 _ 1⟩

/-! ## Lemmas: the spatial index -/

theorem ceilDivNat_of_not_dvd (a n : Nat) (hn : 0 < n) (h : ¬ n ∣ a) :
    ceilDivNat a n = a / n + 1 := by
  have hmod := Nat.div_add_mod a n
  have hlt : a % n < n := Nat.mod_lt a hn
  have hr : a % n ≠ 0 := fun h0 => h (Nat.dvd_iff_mod_eq_zero.mpr h0)
  have ha : a + n - 1 = n * (a / n) + (a % n + n - 1) := by omega
  unfold ceilDivNat
  rw [ha, Nat.mul_add_div hn]
  have h1 : (a % n + n - 1) / n = 1 := by
    apply Nat.div_eq_of_lt_le
    · omega
    · omega
  omega

theorem ceilDivNat_of_dvd (a n : Nat) (hn : 0 < n) (h : n ∣ a) :
    ceilDivNat a n = a / n := by
  have hmod := Nat.div_add_mod a n
  have hr : a % n = 0 := Nat.dvd_iff_mod_eq_zero.mp h
  have ha : a + n - 1 = n * (a / n) + (n - 1) := by omega
  unfold ceilDivNat
  rw [ha, Nat.mul_add_div hn]
  have h1 : (n - 1) / n = 0 := Nat.div_eq_of_lt (by omega)
  omega

/-- C3 counterexample: with a single registered worker
(`_nodes.size() = 2`), `BuildSpatialIndex` sets
`_chunk_size = (SPACECODE_MAX + 1) / 1 + 1 = SPACECODE_MAX + 2`, not the
claimed `⌈(SPACECODE_MAX + 1) / 1⌉ = SPACECODE_MAX + 1`. -/
theorem spatial_chunk_counterexample :
    spatialChunkSize 2 ≠ ceilDivNat (SPACECODE_MAX + 1) 1 := by decide

/-- C3 amended: after registration of `n ≥ 1` workers
(`_nodes.size() = n + 1`), `BuildSpatialIndex` records the worker ids
`1, …, n` in increasing id order, and sets the chunk size to
`⌊(SPACECODE_MAX + 1) / n⌋ + 1` — which equals
`⌈(SPACECODE_MAX + 1) / n⌉` exactly when `n` does not divide
`SPACECODE_MAX + 1 = 2 ^ 63` (any worker count that is not a power of two)
and exceeds that ceiling by one when it does; in either case
`n · chunk ≥ SPACECODE_MAX + 1`, so the chunks cover the whole code space. -/
theorem spatial_index_amended (n : Nat) (hn : 1 ≤ n) :
    spatialIndexIds (n + 1) = (List.range n).map (fun i => i + 1) ∧
    List.Sorted (· < ·) (spatialIndexIds (n + 1)) ∧
    spatialChunkSize (n + 1) = (SPACECODE_MAX + 1) / n + 1 ∧
    (¬ n ∣ SPACECODE_MAX + 1 →
      spatialChunkSize (n + 1) = ceilDivNat (SPACECODE_MAX + 1) n) ∧
    (n ∣ SPACECODE_MAX + 1 →
      spatialChunkSize (n + 1) = ceilDivNat (SPACECODE_MAX + 1) n + 1) ∧
    SPACECODE_MAX + 1 ≤ n * spatialChunkSize (n + 1) := by
  have hids : spatialIndexIds (n + 1) = (List.range n).map (fun i => i + 1) := by
    unfold spatialIndexIds
    rw [List.range_succ_eq_map]
    simp [Nat.succ_eq_add_one]
  have hchunk : spatialChunkSize (n + 1) = (SPACECODE_MAX + 1) / n + 1 := by
    unfold spatialChunkSize
    simp
  refine ⟨hids, ?_, hchunk, ?_, ?_, ?_⟩
  · rw [hids]
    exact (List.pairwise_lt_range n).map _ (fun a b h => by omega)
  · intro hdvd
    rw [hchunk, ceilDivNat_of_not_dvd _ _ (by omega) hdvd]
  · intro hdvd
    rw [hchunk, ceilDivNat_of_dvd _ _ (by omega) hdvd]
  · rw [hchunk, Nat.mul_add, Nat.mul_one]
    have hmod := Nat.div_add_mod (SPACECODE_MAX + 1) n
    have hlt : (SPACECODE_MAX + 1) % n < n := Nat.mod_lt _ (by omega)
    omega

/-- Closed-instance witness for `spatial_index_amended`, at two workers. -/
theorem spatial_index_amended_witness :
    spatialIndexIds 3 = [1, 2] ∧ spatialChunkSize 3 = 2 ^ 62 + 1 :=
  ⟨by
    rw [(spatial_index_amended 2 (by decide)).1]
    decide,
   by
    rw [(spatial_index_amended 2 (by decide)).2.2.1]
    decide⟩

/-! ## C9: protocol violations are non-fatal -/

/-- C9: a received message whose kind is not `OK`, `RENDER_STATS`, or
`SYNC_IMAGE` is logged and dispatched nowhere — no abort, no state change,
no side effect; likewise an `OK` received in a state with no defined
transition (the `default` of `OnOK`'s switch) is logged and leaves the
worker's state unchanged. -/
theorem dispatch_non_fatal :
    (∀ (ls : Bool) (kind : Nat) (st : NState),
        kind ≠ KIND_OK → kind ≠ KIND_RENDER_STATS → kind ≠ KIND_SYNC_IMAGE →
        dispatchMessage ls kind st = ⟨st, [], true, false⟩) ∧
    (∀ (ls : Bool) (st : NState),
        (st = NState.NONE ∨ st = NState.READY ∨ st = NState.RENDERING ∨
          st = NState.PAUSED ∨ st = NState.SYNCING_IMAGES) →
        dispatchMessage ls KIND_OK st = ⟨st, [], true, false⟩) := by
  constructor
  · intro ls kind st h1 h2 h3
    unfold dispatchMessage
    simp [h1, h2, h3]
  · intro ls st hst
    rcases hst with h | h | h | h | h <;> subst h <;> rfl

/-- Closed-instance witness for `dispatch_non_fatal`: a stray `RAY` message
and an `OK` during `RENDERING`. -/
theorem dispatch_non_fatal_witness :
    dispatchMessage true KIND_RAY NState.RENDERING =
      ⟨NState.RENDERING, [], true, false⟩ ∧
    dispatchMessage true KIND_OK NState.RENDERING =
      ⟨NState.RENDERING, [], true, false⟩ :=
  ⟨dispatch_non_fatal.1 true KIND_RAY NState.RENDERING (by decide) (by decide)
      (by decide),
    dispatch_non_fatal.2 true NState.RENDERING (by simp)⟩

/-! ## C4: runaway tick -/

theorem runaway_tick_spec (r s : ℚ) (ws : List RWorker)
    (hr : 0 ≤ r) (hs : slowestProgress ws = some s) :
    runawayTick r ws = ws.map (runawayStep s r) ∧
    ∀ w ∈ ws, (w.state = NState.RENDERING ∨ w.state = NState.PAUSED) →
      (((runawayStep s r w).2 = some KIND_RENDER_PAUSE) ↔
        (s + r < w.progress ∧ w.state = NState.RENDERING)) ∧
      (((runawayStep s r w).2 = some KIND_RENDER_RESUME) ↔
        (w.progress ≤ s ∧ w.state = NState.PAUSED)) ∧
      ((runawayStep s r w).2 = some KIND_RENDER_PAUSE →
        (runawayStep s r w).1.state = NState.PAUSED) ∧
      ((runawayStep s r w).2 = some KIND_RENDER_RESUME →
        (runawayStep s r w).1.state = NState.RENDERING) ∧
      ¬((runawayStep s r w).2 = some KIND_RENDER_PAUSE ∧
        (runawayStep s r w).2 = some KIND_RENDER_RESUME) := by
  constructor
  · unfold runawayTick
    rw [hs]
  · intro w hw hstate
    unfold runawayStep
    rcases hstate with hst | hst
    · by_cases h1 : s + r < w.progress
      · simp [h1, hst, KIND_RENDER_PAUSE, KIND_RENDER_RESUME]
      · by_cases h2 : w.progress ≤ s <;>
          simp [h1, h2, hst, KIND_RENDER_PAUSE, KIND_RENDER_RESUME]
    · by_cases h1 : s + r < w.progress
      · simp [h1, hst, KIND_RENDER_PAUSE, KIND_RENDER_RESUME]
        linarith
      · by_cases h2 : w.progress ≤ s <;>
          simp [h1, h2, hst, KIND_RENDER_PAUSE, KIND_RENDER_RESUME]

/-- Closed-instance witness for `runaway_tick_spec`: two workers with
progress 0 and 1, margin 1/2: the faster is paused, the slower untouched. -/
theorem runaway_tick_spec_witness :
    runawayTick (1/2)
        [⟨0, NState.RENDERING⟩, ⟨1, NState.RENDERING⟩] =
      [⟨0, NState.RENDERING⟩, ⟨1, NState.RENDERING⟩].map
        (runawayStep 0 (1/2)) ∧
    (runawayStep 0 (1/2) ⟨1, NState.RENDERING⟩).2 = some KIND_RENDER_PAUSE :=
  ⟨(runaway_tick_spec (1/2) 0 [⟨0, NState.RENDERING⟩, ⟨1, NState.RENDERING⟩]
      (by norm_num) (by decide)).1,
    ((runaway_tick_spec (1/2) 0 [⟨0, NState.RENDERING⟩, ⟨1, NState.RENDERING⟩]
        (by norm_num) (by decide)).2 ⟨1, NState.RENDERING⟩ (by decide)
        (Or.inl rfl)).1.mpr ⟨by norm_num, rfl⟩⟩

/-! ## C6: mesh-handoff mutual exclusion -/

theorem hStep_tokens (s s2 : HState) (l : HLabel) (h : hStep s l = some s2) :
    hTokens s2 ≤ hTokens s := by
  cases l with
  | acquire =>
    simp only [hStep] at h
    split at h
    · rename_i hc
      obtain ⟨hpc, hpos⟩ := hc
      cases h
      unfold hTokens
      simp [hpc]
      omega
    · exact Option.noConfusion h
  | publish id =>
    simp only [hStep] at h
    split at h
    · rename_i hpc
      cases h
      unfold hTokens
      simp [hpc]
      omega
    · exact Option.noConfusion h
  | idleSend =>
    simp only [hStep] at h
    split at h
    · rename_i hc
      cases h
      unfold hTokens
      simp only
      by_cases hpc : s.pc = PPc.holding <;> simp [hpc] <;> omega
    · exact Option.noConfusion h
  | idleFinish =>
    simp only [hStep] at h
    split at h
    · rename_i hc
      cases h
      unfold hTokens
      simp only
      by_cases hpc : s.pc = PPc.holding <;> simp [hpc]
    · exact Option.noConfusion h
  | ack =>
    simp only [hStep] at h
    split at h
    · rename_i hc
      cases h
      unfold hTokens
      simp only
      by_cases hpc : s.pc = PPc.holding <;> simp [hpc] <;> omega
    · exact Option.noConfusion h

theorem hRun_tokens (ls : List HLabel) (s0 s : HState)
    (h0 : hTokens s0 ≤ 1) (h : hRun s0 ls = some s) : hTokens s ≤ 1 := by
  induction ls generalizing s0 with
  | nil =>
    unfold hRun at h
    cases h
    exact h0
  | cons l ls ih =>
    unfold hRun at h
    rcases hstep : hStep s0 l with _ | s1
    · rw [hstep] at h
      simp at h
    · rw [hstep] at h
      simp only [Option.some_bind] at h
      exact ih s1 ((hStep_tokens s0 s1 l hstep).trans h0) h

/-- C6: in every reachable interleaving of the producer
(`SyncMesh`: wait `mesh_synced`, publish, post `mesh_read`) and the reactor
(`OnSyncIdle`: try-wait `mesh_read`, send the mesh; `OnOK` in
`SYNCING_ASSETS`: release the slot, post `mesh_synced`), at most one mesh is
in flight over the network, and whenever the producer can pass
`sem_wait(&mesh_synced)` (`mesh_synced > 0`) nothing is in flight and no
publication is pending — the producer cannot run ahead of the consumer. -/
theorem mesh_handoff_mutex :
    ∀ (ls : List HLabel) (s : HState), hRun hInit ls = some s →
      s.inflight ≤ 1 ∧
      (0 < s.synced →
        s.inflight = 0 ∧ s.meshRead = 0 ∧ s.pc = PPc.waiting) := by
  intro ls s h
  have htok : hTokens s ≤ 1 := hRun_tokens ls hInit s (by decide) h
  unfold hTokens at htok
  constructor
  · omega
  · intro hpos
    refine ⟨by omega, by omega, ?_⟩
    rcases hpc : s.pc with _ | _
    · rfl
    · rw [hpc] at htok
      simp at htok
      omega

/-- The state reached by one full produce-send-acknowledge round of the
handoff, used by the witness below. -/
def hRound : HState := ⟨1, 0, PPc.waiting, 5, 0, true⟩

/-- Closed-instance witness for `mesh_handoff_mutex`: one full
produce-send-acknowledge round. -/
theorem mesh_handoff_mutex_witness :
    hRound.inflight ≤ 1 ∧
    (0 < hRound.synced →
      hRound.inflight = 0 ∧ hRound.meshRead = 0 ∧ hRound.pc = PPc.waiting) :=
  mesh_handoff_mutex
    [HLabel.acquire, HLabel.publish 5, HLabel.idleSend, HLabel.ack] hRound
    (by decide)

/-! ## C5: quiescence termination -/

/-- The render-phase invariant tying `StopRender` to the timers: the
interesting timer runs exactly until the first `StopRender`; the runaway
timer never outlives it; `StopRender` has run at most once; every worker has
received exactly `stopCount` `RENDER_STOP` messages; and once `StopRender`
has run, every worker is in `SYNCING_IMAGES`. -/
def QInv (e : QEngine) : Prop :=
  (e.interestingActive = true ↔ e.stopCount = 0) ∧
  (e.runawayActive = true → e.stopCount = 0) ∧
  e.stopCount ≤ 1 ∧
  (∀ w ∈ e.workers, w.log.count KIND_RENDER_STOP = e.stopCount) ∧
  (e.stopCount = 1 → ∀ w ∈ e.workers, w.state = NState.SYNCING_IMAGES)

instance (e : QEngine) : Decidable (QInv e) := by
  unfold QInv; infer_instance

theorem QInv_stats (e : QEngine) (i : Nat) (st : RayStats) (h : QInv e) :
    QInv { e with workers := addStatsAt e.workers i st } := by
  obtain ⟨h1, h2, h3, h4, h5⟩ := h
  by_cases hi : i < e.workers.length
  · refine ⟨h1, h2, h3, ?_, ?_⟩
    · intro w hw
      simp only [addStatsAt] at hw
      rcases List.mem_or_eq_of_mem_set hw with hmem | heq
      · exact h4 w hmem
      · subst heq
        simp only
        have hbase : e.workers.getD i ⟨NState.NONE, [], []⟩ ∈ e.workers := by
          rw [List.getD_eq_getElem e.workers _ hi]
          exact List.getElem_mem hi
        exact h4 _ hbase
    · intro hsc w hw
      simp only [addStatsAt] at hw
      rcases List.mem_or_eq_of_mem_set hw with hmem | heq
      · exact h5 hsc w hmem
      · subst heq
        simp only
        have hbase : e.workers.getD i ⟨NState.NONE, [], []⟩ ∈ e.workers := by
          rw [List.getD_eq_getElem e.workers _ hi]
          exact List.getElem_mem hi
        exact h5 hsc _ hbase
  · have hset : addStatsAt e.workers i st = e.workers := by
      unfold addStatsAt
      exact List.set_eq_of_length_le (by omega)
    rw [hset]
    exact ⟨h1, h2, h3, h4, h5⟩

theorem QInv_itick (k : Nat) (e : QEngine) (h : QInv e) :
    QInv (interestingTick k e) := by
  obtain ⟨h1, h2, h3, h4, h5⟩ := h
  unfold interestingTick
  split
  · exact ⟨h1, h2, h3, h4, h5⟩
  · split
    · rename_i hact hall
      have hact2 : e.interestingActive = true := by
        cases hh : e.interestingActive
        · exact absurd hh hact
        · rfl
      have hsc : e.stopCount = 0 := h1.mp hact2
      unfold stopRender
      refine ⟨by simp [hsc], by simp, by simp [hsc], ?_, ?_⟩
      · intro w hw
        rcases List.mem_map.mp hw with ⟨w0, hw0, heq⟩
        subst heq
        simp only [List.count_append]
        rw [h4 w0 hw0, hsc]
        decide
      · intro _ w hw
        rcases List.mem_map.mp hw with ⟨w0, hw0, heq⟩
        subst heq
        rfl
    · exact ⟨h1, h2, h3, h4, h5⟩

theorem QInv_rtick (pause : List Bool) (e : QEngine) (h : QInv e) :
    QInv (qRunawayTick pause e) := by
  obtain ⟨h1, h2, h3, h4, h5⟩ := h
  unfold qRunawayTick
  split
  · exact ⟨h1, h2, h3, h4, h5⟩
  · rename_i hact
    have hact2 : e.runawayActive = true := by
      cases hh : e.runawayActive
      · exact absurd hh hact
      · rfl
    have hsc : e.stopCount = 0 := h2 hact2
    refine ⟨h1, h2, h3, ?_, ?_⟩
    · intro w hw
      simp only at hw
      rcases List.mem_map.mp hw with ⟨p, hp, heq⟩
      have hp1 : p.1 ∈ e.workers := (List.of_mem_zip hp).1
      subst heq
      have hcnt := h4 p.1 hp1
      by_cases hb : p.2 <;>
        rcases hst : p.1.state <;>
        simp [hb, hst, List.count_append] at hcnt ⊢ <;>
        rw [hcnt] <;> rw [hsc] <;> decide
    · intro h0
      rw [hsc] at h0
      exact absurd h0 (by decide)

theorem QInv_qStep (k : Nat) (e : QEngine) (ev : QEvent) (h : QInv e) :
    QInv (qStep k e ev) := by
  cases ev with
  | stats i st => exact QInv_stats e i st h
  | itick => exact QInv_itick k e h
  | rtick pause => exact QInv_rtick pause e h

theorem QInv_qRun (k : Nat) (evs : List QEvent) (e : QEngine) (h : QInv e) :
    QInv (qRun k e evs) := by
  induction evs generalizing e with
  | nil => exact h
  | cons ev evs ih => exact ih _ (QInv_qStep k e ev h)

theorem qStep_stopCount_mono (k : Nat) (e : QEngine) (ev : QEvent) :
    e.stopCount ≤ (qStep k e ev).stopCount := by
  cases ev with
  | stats i st => exact Nat.le_refl _
  | itick =>
    show e.stopCount ≤ (interestingTick k e).stopCount
    unfold interestingTick
    split
    · exact Nat.le_refl _
    · split
      · unfold stopRender
        simp
      · exact Nat.le_refl _
  | rtick pause =>
    show e.stopCount ≤ (qRunawayTick pause e).stopCount
    unfold qRunawayTick
    split
    · exact Nat.le_refl _
    · exact Nat.le_refl _

theorem qRun_stopCount_mono (k : Nat) (evs : List QEvent) (e : QEngine) :
    e.stopCount ≤ (qRun k e evs).stopCount := by
  induction evs generalizing e with
  | nil => exact Nat.le_refl _
  | cons ev evs ih =>
    exact (qStep_stopCount_mono k e ev).trans (ih (qStep k e ev))

/-- C5: if an interesting-timer tick finds every worker uninteresting, it
invokes `StopRender`, which sends exactly one `RENDER_STOP` to every worker,
transitions each to `SYNCING_IMAGES`, and stops both timers, after which the
tick is a no-op; over any sequence of render-phase events starting from the
render start (timers running, no stop yet, no `RENDER_STOP` ever sent), the
invocation count is monotone and never exceeds one — `StopRender` runs
exactly once over the whole run. -/
theorem quiescence_termination (k : Nat) :
    (∀ e : QEngine, e.interestingActive = true →
      e.workers.all (fun w => !isInteresting k w.stats) = true →
      interestingTick k e = stopRender e) ∧
    (∀ e : QEngine,
      (stopRender e).stopCount = e.stopCount + 1 ∧
      (stopRender e).interestingActive = false ∧
      (stopRender e).runawayActive = false ∧
      (stopRender e).workers = e.workers.map (fun w =>
        { w with state := NState.SYNCING_IMAGES,
                 log := w.log ++ [KIND_RENDER_STOP] })) ∧
    (∀ e : QEngine, e.interestingActive = false → interestingTick k e = e) ∧
    (∀ (evs : List QEvent) (e : QEngine), QInv e →
      QInv (qRun k e evs) ∧ (qRun k e evs).stopCount ≤ 1) ∧
    (∀ (evs : List QEvent) (e : QEngine),
      e.stopCount ≤ (qRun k e evs).stopCount) := by
  refine ⟨?_, ?_, ?_, ?_, ?_⟩
  · intro e hact hall
    unfold interestingTick
    rw [hact, hall]
    rfl
  · intro e
    exact ⟨rfl, rfl, rfl, rfl⟩
  · intro e hact
    unfold interestingTick
    rw [hact]
    rfl
  · intro evs e h
    have h2 := QInv_qRun k evs e h
    exact ⟨h2, h2.2.2.1⟩
  · intro evs e
    exact qRun_stopCount_mono k evs e

/-- Closed-instance witness for `quiescence_termination`: one worker, one
quiescent tick. -/
theorem quiescence_termination_witness :
    QInv (qRun 1 ⟨[⟨NState.RENDERING, [], []⟩], true, true, 0⟩
        [QEvent.itick]) ∧
    (qRun 1 ⟨[⟨NState.RENDERING, [], []⟩], true, true, 0⟩
        [QEvent.itick]).stopCount ≤ 1 :=
  (quiescence_termination 1).2.2.2.1 [QEvent.itick]
    ⟨[⟨NState.RENDERING, [], []⟩], true, true, 0⟩ (by decide)

/-! ## C2: image-slab partition -/

theorem slab_forms (W n : Nat) (hn : 1 ≤ n) (hnW : n ≤ W) (hW : W ≤ 65535) :
    ∀ id, 1 ≤ id → id ≤ n →
      slabOffset W n id = (id - 1) * (W / n) ∧
      slabChunk W n id =
        (if id = n then W - (n - 1) * (W / n) else W / n) := by
  have hq : W / n ≤ W := Nat.div_le_self W n
  have hnq : n * (W / n) ≤ W := by
    rw [Nat.mul_comm]
    exact Nat.div_mul_le_self W n
  intro id h1 h2
  have hoff : (id - 1) * (W / n) ≤ W := by
    calc (id - 1) * (W / n) ≤ n * (W / n) :=
          Nat.mul_le_mul_right _ (by omega)
      _ ≤ W := hnq
  have hqsmall : W / n % 2 ^ 16 = W / n := Nat.mod_eq_of_lt (by omega)
  constructor
  · unfold slabOffset slabQ
    rw [hqsmall]
    exact Nat.mod_eq_of_lt (by omega)
  · unfold slabChunk slabQ
    rw [hqsmall]
    by_cases hid : id = n
    · subst hid
      simp only [if_pos rfl]
      exact Nat.mod_eq_of_lt (by omega)
    · simp only [if_neg hid]

/-- C2 counterexample: the claim quantifies over every image width
`W ≥ n ≥ 1`, but at `W = 65536` with one worker the `uint16_t` narrowing of
`chunk_size = W / n` wraps to `0`: the sole worker's slab is empty (it does
not cover column `0 < W`), instead of the claimed
`chunk = W - (n-1)·⌊W/n⌋ = 65536`, so the tuples do not tile `[0, W)`. -/
theorem render_slab_counterexample :
    slabChunk 65536 1 1 = 0 ∧
    (65536 : Nat) - (1 - 1) * (65536 / 1) = 65536 ∧
    ¬ (slabOffset 65536 1 1 ≤ 0 ∧
        0 < slabOffset 65536 1 1 + slabChunk 65536 1 1) := by decide

/-- C2 amended: for `1 ≤ n ≤ W ≤ 65535` (the image width bound the spec
itself states; wider images overflow the `uint16_t` chunk, see the
counterexample), `StartRender` gives worker `id` the
offset `(id-1)·⌊W/n⌋` and the chunk `⌊W/n⌋`, except the last worker, whose
chunk `W - (n-1)·⌊W/n⌋` absorbs the remainder; the `(offset, chunk)`
intervals tile `[0, W)` with no gap and no overlap (every column lies in
exactly one worker's slab), and each `RENDER_START` payload is
`offset·2^16 + chunk`, i.e. `(offset << 16) | chunk_size` in 32 bits. -/
theorem render_slab_partition (W n : Nat) (hn : 1 ≤ n) (hnW : n ≤ W)
    (hW : W ≤ 65535) :
    (∀ id, 1 ≤ id → id ≤ n →
      slabOffset W n id = (id - 1) * (W / n) ∧
      slabChunk W n id = (if id = n then W - (n - 1) * (W / n) else W / n) ∧
      slabPayload W n id =
        (id - 1) * (W / n) * 2 ^ 16 +
          (if id = n then W - (n - 1) * (W / n) else W / n)) ∧
    (∀ x, x < W → ∃! id, (1 ≤ id ∧ id ≤ n) ∧
      slabOffset W n id ≤ x ∧ x < slabOffset W n id + slabChunk W n id) := by
  have hq1 : 1 ≤ W / n := (Nat.one_le_div_iff (by omega)).mpr hnW
  have hqW : W / n ≤ W := Nat.div_le_self W n
  have hnq : n * (W / n) ≤ W := by
    rw [Nat.mul_comm]
    exact Nat.div_mul_le_self W n
  have hforms := slab_forms W n hn hnW hW
  constructor
  · intro id h1 h2
    obtain ⟨ho, hc⟩ := hforms id h1 h2
    refine ⟨ho, hc, ?_⟩
    have hosz : (id - 1) * (W / n) < 2 ^ 16 := by
      have : (id - 1) * (W / n) ≤ n * (W / n) :=
        Nat.mul_le_mul_right _ (by omega)
      omega
    have hcsz : (if id = n then W - (n - 1) * (W / n) else W / n) < 2 ^ 16 := by
      split <;> omega
    unfold slabPayload
    rw [ho, hc]
    apply Nat.mod_eq_of_lt
    have hob : (id - 1) * (W / n) * 2 ^ 16 ≤ (2 ^ 16 - 1) * 2 ^ 16 :=
      Nat.mul_le_mul_right _ (by omega)
    omega
  · intro x hx
    obtain ⟨k, hkdef⟩ : ∃ k, k = x / (W / n) := ⟨_, rfl⟩
    have hxq : k * (W / n) ≤ x := by
      rw [hkdef]
      exact Nat.div_mul_le_self x (W / n)
    have hxq2 : x < k * (W / n) + W / n := by
      have hd := Nat.div_add_mod x (W / n)
      have hm : x % (W / n) < W / n := Nat.mod_lt x (by omega)
      rw [Nat.mul_comm] at hd
      rw [hkdef]
      omega
    refine ⟨min (k + 1) n, ⟨⟨?_, ?_⟩, ?_, ?_⟩, ?_⟩
    · exact Nat.le_min.mpr ⟨by omega, hn⟩
    · exact Nat.min_le_right _ _
    · -- the chosen worker's offset is at most x
      obtain ⟨ho, _⟩ := hforms (min (k + 1) n)
        (Nat.le_min.mpr ⟨by omega, hn⟩) (Nat.min_le_right _ _)
      rw [ho]
      rcases Nat.le_total (k + 1) n with hle | hle
      · rw [Nat.min_eq_left hle]
        simpa using hxq
      · rw [Nat.min_eq_right hle]
        calc (n - 1) * (W / n) ≤ k * (W / n) :=
              Nat.mul_le_mul_right _ (by omega)
          _ ≤ x := hxq
    · -- x lies below the end of the chosen worker's slab
      obtain ⟨ho, hc⟩ := hforms (min (k + 1) n)
        (Nat.le_min.mpr ⟨by omega, hn⟩) (Nat.min_le_right _ _)
      rw [ho, hc]
      rcases Nat.lt_or_ge (k + 1) n with hlt | hge
      · rw [Nat.min_eq_left (by omega)]
        simp only [if_neg (by omega : ¬ k + 1 = n), Nat.add_sub_cancel]
        omega
      · rw [Nat.min_eq_right (by omega), if_pos rfl]
        have hnn : (n - 1) * (W / n) ≤ n * (W / n) :=
          Nat.mul_le_mul_right _ (by omega)
        omega
    · -- uniqueness: any covering worker is the chosen one
      intro y hy
      obtain ⟨⟨hy1, hy2⟩, hylo, hyhi⟩ := hy
      obtain ⟨ho, hc⟩ := hforms y hy1 hy2
      rw [ho] at hylo
      rw [ho, hc] at hyhi
      by_cases hyn : y = n
      · rw [hyn] at hylo
        have hdiv : n - 1 ≤ x / (W / n) :=
          (Nat.le_div_iff_mul_le (by omega)).mpr hylo
        rw [← hkdef] at hdiv
        rw [hyn]
        exact (Nat.min_eq_right (by omega)).symm
      · rw [if_neg hyn] at hyhi
        have hs : (y - 1) * (W / n) + W / n = (y - 1 + 1) * (W / n) :=
          (Nat.succ_mul _ _).symm
        have hdiv : x / (W / n) = y - 1 :=
          Nat.div_eq_of_lt_le hylo (by omega)
        rw [← hkdef] at hdiv
        have hy0 : y - 1 + 1 = y := by omega
        rw [hdiv, hy0]
        exact (Nat.min_eq_left (by omega)).symm

/-- Closed-instance witness for `render_slab_partition`: the spec's scenario
S2 (`W = 641`, `n = 3`): the last worker's payload is
`(426 << 16) | 215`. -/
theorem render_slab_partition_witness :
    slabPayload 641 3 3 = 426 * 2 ^ 16 + 215 ∧
    (∃! id, (1 ≤ id ∧ id ≤ 3) ∧
      slabOffset 641 3 id ≤ 640 ∧
      640 < slabOffset 641 3 id + slabChunk 641 3 id) :=
  ⟨by
    have h := ((render_slab_partition 641 3 (by decide) (by decide)
        (by decide)).1 3 (by decide) (by decide)).2.2
    rw [h]
    decide,
   (render_slab_partition 641 3 (by decide) (by decide) (by decide)).2 640
     (by decide)⟩

/-! ## C1: framing round-trip -/

theorem dec_enc (x : Nat) (hx : x < 2 ^ 32) :
    dec32 (x % 256) (x / 2 ^ 8 % 256) (x / 2 ^ 16 % 256) (x / 2 ^ 24 % 256) =
      x := by
  unfold dec32
  omega

theorem sendBody_stream (cap : Nat) (hcap : 0 < cap) (s : SendState)
    (bs : List Nat) :
    (sendBody cap hcap s bs).sent ++ (sendBody cap hcap s bs).buf =
      s.sent ++ s.buf ++ bs := by
  induction s, bs using sendBody.induct cap hcap with
  | case1 s bs space h =>
    rw [sendBody]
    simp only [if_pos h]
    simp [List.append_assoc]
  | case2 s bs space h ih =>
    rw [sendBody]
    simp only [if_neg h]
    rw [ih]
    unfold flushSend
    split <;> simp [List.append_assoc]

theorem flushSend_stream (s : SendState) :
    (flushSend s).sent ++ (flushSend s).buf = s.sent ++ s.buf := by
  unfold flushSend
  split <;> simp

theorem flushSend_buf (s : SendState) : (flushSend s).buf = [] := by
  unfold flushSend
  split
  · assumption
  · rfl

theorem sendMsg_stream (cap : Nat) (hcap : 8 ≤ cap) (s : SendState)
    (m : WireMessage) :
    (sendMsg cap hcap s m).sent ++ (sendMsg cap hcap s m).buf =
      s.sent ++ s.buf ++ encodeMsg m := by
  unfold sendMsg
  rw [sendBody_stream]
  unfold encodeMsg
  split
  · rw [← List.append_assoc, ← List.append_assoc, flushSend_stream]
    simp [List.append_assoc]
  · simp [List.append_assoc]

theorem sendAll_stream (cap : Nat) (hcap : 8 ≤ cap) (s : SendState)
    (ms : List WireMessage) :
    (sendAll cap hcap s ms).sent ++ (sendAll cap hcap s ms).buf =
      s.sent ++ s.buf ++ (ms.map encodeMsg).flatten := by
  induction ms generalizing s with
  | nil => simp [sendAll]
  | cons m ms ih =>
    show (sendAll cap hcap (sendMsg cap hcap s m) ms).sent ++
        (sendAll cap hcap (sendMsg cap hcap s m) ms).buf = _
    rw [ih, sendMsg_stream]
    simp [List.append_assoc]

theorem wireStream_eq (cap : Nat) (hcap : 8 ≤ cap) (ms : List WireMessage) :
    wireStream cap hcap ms = (ms.map encodeMsg).flatten := by
  unfold wireStream
  have h1 := flushSend_stream (sendAll cap hcap ⟨[], []⟩ ms)
  rw [flushSend_buf, List.append_nil] at h1
  rw [h1, sendAll_stream]
  simp

theorem recvChunk_append (s : RecvState) (a b : List Nat) :
    recvChunk s (a ++ b) = recvChunk (recvChunk s a) b :=
  List.foldl_append recvByte s a b

theorem recvChunks_join (s : RecvState) (cs : List (List Nat)) :
    recvChunks s cs = recvChunk s cs.flatten := by
  induction cs generalizing s with
  | nil => rfl
  | cons c cs ih =>
    show recvChunks (recvChunk s c) cs = _
    rw [ih, List.flatten_cons, recvChunk_append]

theorem recvChunk_header (out : List WireMessage)
    (b0 b1 b2 b3 c0 c1 c2 c3 : Nat) :
    recvChunk ⟨.header [], out⟩ [b0, b1, b2, b3, c0, c1, c2, c3] =
      (if dec32 c0 c1 c2 c3 = 0 then
        ⟨.header [], out ++ [⟨dec32 b0 b1 b2 b3, 0, []⟩]⟩
      else ⟨.body (dec32 b0 b1 b2 b3) (dec32 c0 c1 c2 c3) [], out⟩) := by
  simp only [recvChunk, List.foldl_cons, List.foldl_nil]
  simp only [recvByte, List.nil_append, List.cons_append, List.length_cons,
    List.length_nil]
  norm_num

theorem recv_body (kind size : Nat) (out : List WireMessage)
    (acc bs : List Nat) (h : acc.length + bs.length = size) (hbs : bs ≠ []) :
    recvChunk ⟨.body kind size acc, out⟩ bs =
      ⟨.header [], out ++ [⟨kind, size, acc ++ bs⟩]⟩ := by
  induction bs generalizing acc with
  | nil => exact absurd rfl hbs
  | cons b bs ih =>
    show recvChunk (recvByte ⟨.body kind size acc, out⟩ b) bs = _
    by_cases hlast : bs = []
    · subst hlast
      simp only [List.length_cons, List.length_nil] at h
      simp only [recvByte]
      rw [if_neg
        (by simp only [List.length_append, List.length_singleton]; omega)]
      show (⟨.header [], out ++ [⟨kind, size, acc ++ [b]⟩]⟩ : RecvState) = _
      simp
    · have hlen : (acc ++ [b]).length + bs.length = size := by
        simp only [List.length_append, List.length_singleton]
        simp only [List.length_cons] at h
        omega
      have hlt : (acc ++ [b]).length < size := by
        have hp : 0 < bs.length := List.length_pos.mpr hlast
        omega
      simp only [recvByte]
      rw [if_pos hlt]
      rw [ih (acc ++ [b]) hlen hlast]
      simp

theorem recv_encode (out : List WireMessage) (m : WireMessage)
    (hm : m.wf) : recvChunk ⟨.header [], out⟩ (encodeMsg m) =
      ⟨.header [], out ++ [m]⟩ := by
  obtain ⟨hkind, hsize, hbody⟩ := hm
  have henc : encodeMsg m =
      [m.kind % 256, m.kind / 2 ^ 8 % 256, m.kind / 2 ^ 16 % 256,
        m.kind / 2 ^ 24 % 256, m.size % 256, m.size / 2 ^ 8 % 256,
        m.size / 2 ^ 16 % 256, m.size / 2 ^ 24 % 256] ++ m.body := by
    simp [encodeMsg, enc32]
  rw [henc, recvChunk_append, recvChunk_header, dec_enc m.kind hkind,
    dec_enc m.size hsize]
  by_cases hz : m.size = 0
  · rw [if_pos hz]
    have hb : m.body = [] := List.length_eq_zero.mp (by omega)
    have hmx : (⟨m.kind, 0, []⟩ : WireMessage) = m := by
      cases m
      simp_all
    rw [hmx, hb]
    rfl
  · rw [if_neg hz]
    rw [recv_body m.kind m.size out [] m.body (by simpa using hbody)
      (fun hn => hz (by rw [← hbody, hn]; rfl))]
    have hmx : (⟨m.kind, m.size, m.body⟩ : WireMessage) = m := by
      cases m
      rfl
    simp [hmx]

theorem recv_stream (ms : List WireMessage) (hms : ∀ m ∈ ms, m.wf)
    (out : List WireMessage) :
    recvChunk ⟨.header [], out⟩ (ms.map encodeMsg).flatten =
      ⟨.header [], out ++ ms⟩ := by
  induction ms generalizing out with
  | nil => simp [recvChunk]
  | cons m ms ih =>
    rw [List.map_cons, List.flatten_cons, recvChunk_append,
      recv_encode out m (hms m (List.mem_cons_self m ms)),
      ih (fun x hx => hms x (List.mem_cons_of_mem m hx))]
    simp

/-- C1: framing round-trip.  Any finite sequence of well-formed messages
pushed through `NetNode::Send`'s write buffer (with its flushes) produces a
wire byte stream; feeding that stream to `NetNode::Receive`, split
arbitrarily on byte boundaries into chunks, dispatches exactly the original
messages, in order, with bit-identical kind, size, and body (zero-size
bodies included), and leaves the receiver back in header mode. -/
theorem framing_round_trip (cap : Nat) (hcap : 8 ≤ cap)
    (ms : List WireMessage) (hms : ∀ m ∈ ms, m.wf)
    (chunks : List (List Nat))
    (hchunks : chunks.flatten = wireStream cap hcap ms) :
    recvChunks recvInit chunks = ⟨.header [], ms⟩ := by
  rw [recvChunks_join, hchunks, wireStream_eq]
  simpa [recvInit] using recv_stream ms hms []

/-- Closed-instance witness for `framing_round_trip`: a two-byte-body
message followed by a zero-size message, cut into chunks that split both the
header and the body. -/
theorem framing_round_trip_witness :
    recvChunks recvInit
        [[1, 0, 0], [0, 2, 0, 0, 0, 10], [20, 44, 1, 0, 0], [0, 0, 0, 0]] =
      ⟨.header [], [⟨1, 2, [10, 20]⟩, ⟨300, 0, []⟩]⟩ :=
  framing_round_trip 65536 (by decide) [⟨1, 2, [10, 20]⟩, ⟨300, 0, []⟩]
    (by decide) _
    (by rw [wireStream_eq]; decide)

end FlexRender
